import Mathlib

/-!
Verification of the Mach-O harvester (`machob_harvester.py`) and its
analytics dashboard (`dashboard.py`).

The harvester shells out to `otool` and parses its *text* output, so the
embedding works on lines of text.  A line is modelled as `List Char`
(Python `str` semantics: `strip`, `split`, `startswith` are re-implemented
below with Python's behaviour).  The `otool` collaborator is external to
the repository; where a claim needs its output, the output shape is
modelled from the spec (see the doc comments of the render functions).
-/

/-- A line of text, as Python manipulates it (`str` ~ list of characters). -/
abbrev Line := List Char

/-- Python `str.strip()`: remove leading and trailing whitespace. -/
def pyStrip (l : Line) : Line :=
  ((l.dropWhile Char.isWhitespace).reverse.dropWhile Char.isWhitespace).reverse

/-- Auxiliary worker for `pySplit`; `acc` holds the current word reversed. -/
def pySplitAux : Line → Line → List Line
  | [], acc => if acc.isEmpty then [] else [acc.reverse]
  | c :: cs, acc =>
    if c.isWhitespace then
      if acc.isEmpty then pySplitAux cs [] else acc.reverse :: pySplitAux cs []
    else pySplitAux cs (c :: acc)

/-- Python `str.split()` with no arguments: split on whitespace runs,
producing no empty words. -/
def pySplit (l : Line) : List Line := pySplitAux l []

/-- Python `str.split(None, n)`: split on whitespace runs, at most `n`
splits; the remainder keeps its interior and trailing whitespace. -/
def pySplitMax (n : Nat) (l : Line) : List Line :=
  let l' := l.dropWhile Char.isWhitespace
  if l'.isEmpty then []
  else
    match n with
    | 0 => [l']
    | n + 1 =>
      let w := l'.takeWhile (fun c => !c.isWhitespace)
      let rest := l'.dropWhile (fun c => !c.isWhitespace)
      w :: pySplitMax n rest

/-! ## `is_mach_o` (machob_harvester.py lines 63-82)

The file is modelled as `Option (List Nat)`: `none` is any failure of
`open`/`read` (the Python code catches every exception and returns
`False`), `some bytes` is a successful read of the whole file; the code
reads `f.read(4)`, i.e. the first at-most-4 bytes. -/

/-- The eight Mach-O magic values recognised by `is_mach_o`, in source
order: thin 32/64-bit and fat 32/64-bit, each in both byte orders. -/
def machMagics : List (List Nat) :=
  [ [0xFE, 0xED, 0xFA, 0xCE]  -- MH_MAGIC
  , [0xCE, 0xFA, 0xED, 0xFE]  -- MH_CIGAM
  , [0xFE, 0xED, 0xFA, 0xCF]  -- MH_MAGIC_64
  , [0xCF, 0xFA, 0xED, 0xFE]  -- MH_CIGAM_64
  , [0xCA, 0xFE, 0xBA, 0xBE]  -- FAT_MAGIC
  , [0xBE, 0xBA, 0xFE, 0xCA]  -- FAT_CIGAM
  , [0xCA, 0xFE, 0xBA, 0xBF]  -- FAT_MAGIC_64
  , [0xBF, 0xBA, 0xFE, 0xCA]  -- FAT_CIGAM_64
  ]

/-- `is_mach_o`: read the first 4 bytes and compare against the magic
list; any read failure yields `false` (bare `except` in the source). -/
def is_mach_o : Option (List Nat) → Bool
  | none => false
  | some bs => machMagics.contains (bs.take 4)

/-! ## The `otool` collaborator

Each `otool` invocation in the source either returns text (here: its
`splitlines()` result), raises `subprocess.CalledProcessError` (non-zero
exit), or raises an OS-level error such as `FileNotFoundError`. -/

/-- Outcome of one `otool` subprocess invocation. -/
inductive OtoolResult where
  | ok (lines : List Line)
  | processError
  | fileNotFound
deriving DecidableEq

/-! ## `get_load_commands` (machob_harvester.py lines 168-218) -/

/-- One parsed load command: the `cmd` / `cmdsize` text fields and the
accumulated detail lines (the Python dict
`{"command": ..., "cmdsize": ..., "details": [...]}`). -/
structure LoadCmd where
  command : Line
  cmdsize : Line
  details : List Line
deriving DecidableEq

/-- The block-delimiter test string of the line loop. -/
def lcTag : Line := "Load command".toList

/-- The `cmd ` field test string. -/
def cmdTag : Line := "cmd ".toList

/-- The `cmdsize ` field test string. -/
def szTag : Line := "cmdsize ".toList

/-- The body of the `elif current_load_cmd is not None` branch minus the
details append: set `command` from a `cmd `-line (`split(maxsplit=1)`,
exactly 2 parts) or `cmdsize` from a `cmdsize `-line (`split()`, at least
2 parts). `l` is the already-stripped line. -/
def setFields (c : LoadCmd) (l : Line) : LoadCmd :=
  if cmdTag.isPrefixOf l then
    match pySplitMax 1 l with
    | [_, v] => { c with command := v }
    | _ => c
  else if szTag.isPrefixOf l then
    match pySplit l with
    | _ :: v :: _ => { c with cmdsize := v }
    | _ => c
  else c

/-- Process one stripped line inside a load-command block: parse known
fields, then unconditionally append the stripped line to `details`. -/
def updateStep (c : LoadCmd) (l : Line) : LoadCmd :=
  let c' := setFields c l
  { c' with details := c'.details ++ [l] }

/-- One iteration of the line loop of `get_load_commands`: state is
`(commands so far, current block or none)`. -/
def processLine (st : List LoadCmd × Option LoadCmd) (line : Line) :
    List LoadCmd × Option LoadCmd :=
  let l := pyStrip line
  if lcTag.isPrefixOf l then
    match st.2 with
    | some c => (st.1 ++ [c], some ⟨[], [], []⟩)
    | none => (st.1, some ⟨[], [], []⟩)
  else
    match st.2 with
    | none => st
    | some c => (st.1, some (updateStep c l))

/-- Parse the `otool -l` output lines into load-command records
(the loop body of `get_load_commands`, plus the final flush). -/
def parseLoadCommands (lines : List Line) : List LoadCmd :=
  let st := lines.foldl processLine ([], none)
  match st.2 with
  | some c => st.1 ++ [c]
  | none => st.1

/-- `get_load_commands`: on `CalledProcessError` return the empty list
(the `except ... pass` path); an OS-level error is not caught and
propagates (`Except.error`). -/
def get_load_commands : OtoolResult → Except Unit (List LoadCmd)
  | .ok lines => .ok (parseLoadCommands lines)
  | .processError => .ok []
  | .fileNotFound => .error ()

/-! ## First sanity examples (removed content lives in theorems below) -/

example : is_mach_o (some [0xFE, 0xED, 0xFA, 0xCE, 0, 1]) = true := by decide

example : is_mach_o (some [0xFE, 0xED]) = false := by decide

example :
    parseLoadCommands
      [ "Mach header".toList
      , "Load command 0".toList
      , "      cmd LC_SEGMENT_64".toList
      , "  cmdsize 72".toList
      , "  segname __PAGEZERO".toList
      , "Load command 1".toList
      , "     cmd LC_SYMTAB".toList
      , " cmdsize 24".toList ] =
    [ ⟨"LC_SEGMENT_64".toList, "72".toList,
        ["cmd LC_SEGMENT_64".toList, "cmdsize 72".toList,
         "segname __PAGEZERO".toList]⟩
    , ⟨"LC_SYMTAB".toList, "24".toList,
        ["cmd LC_SYMTAB".toList, "cmdsize 24".toList]⟩ ] := by decide

/-- Claim C2: `is_mach_o` returns `true` exactly when the first 4 bytes of
the file equal one of the eight listed Mach-O magic values; a file
shorter than 4 bytes never matches (all magics have length 4), and a
failed read (`none`) yields `false` without raising (the embedding is a
total function). -/
theorem is_mach_o_iff_magic :
    (∀ bs : List Nat,
      is_mach_o (some bs) = true ↔ 4 ≤ bs.length ∧ bs.take 4 ∈ machMagics)
    ∧ is_mach_o none = false := by
  refine ⟨fun bs => ?_, rfl⟩
  have hlen : ∀ m ∈ machMagics, m.length = 4 := by decide
  constructor
  · intro h
    have hmem : bs.take 4 ∈ machMagics := by
      simpa [is_mach_o] using h
    have h4 : (bs.take 4).length = 4 := hlen _ hmem
    rw [List.length_take] at h4
    exact ⟨by omega, hmem⟩
  · intro ⟨_, hmem⟩
    simpa [is_mach_o] using hmem

/-- Witness for C2 at a concrete file: a 6-byte file starting with the
64-bit little-endian magic is accepted. -/
theorem is_mach_o_iff_magic_witness :
    is_mach_o (some [0xCF, 0xFA, 0xED, 0xFE, 0x0C, 0x00]) = true :=
  (is_mach_o_iff_magic.1 [0xCF, 0xFA, 0xED, 0xFE, 0x0C, 0x00]).2
    ⟨by decide, by decide⟩

/-! ## Decimal rendering

`otool` prints `cmdsize` and the load-command index in decimal.  The
renderers below (used only on the modelled-from-spec side, never in the
embedded parser) produce the decimal digits of a `Nat`. -/

/-- The decimal digit characters. -/
def digitChar : Nat → Char
  | 0 => '0' | 1 => '1' | 2 => '2' | 3 => '3' | 4 => '4'
  | 5 => '5' | 6 => '6' | 7 => '7' | 8 => '8' | 9 => '9'
  | _ => '0'

/-- Decimal rendering of a natural number, most significant digit first. -/
def natToLine (n : Nat) : Line :=
  if h : n < 10 then [digitChar n]
  else natToLine (n / 10) ++ [digitChar (n % 10)]
termination_by n
decreasing_by exact Nat.div_lt_self (by omega) (by omega)

/-- Numeric value of a digit line, as Python `int` reads it. -/
def lineToNat (l : Line) : Nat :=
  l.foldl (fun n c => n * 10 + (c.toNat - 48)) 0

/-- Python `str.isdigit()` on a line of ASCII text: nonempty and all
characters are decimal digits. -/
def pyIsdigit (l : Line) : Bool := !l.isEmpty && l.all Char.isDigit

/-- `int(s) if s.isdigit() else None`, the conversion `process_file`
applies to the textual `ncmds`/`sizeofcmds` fields. -/
def intIfDigit (l : Line) : Option Nat :=
  if pyIsdigit l then some (lineToNat l) else none

theorem digitChar_mem (n : Nat) :
    digitChar n ∈ ['0', '1', '2', '3', '4', '5', '6', '7', '8', '9'] := by
  unfold digitChar
  split <;> simp

theorem natToLine_mem (n : Nat) :
    ∀ c ∈ natToLine n, c ∈ ['0', '1', '2', '3', '4', '5', '6', '7', '8', '9'] := by
  induction n using Nat.strong_induction_on with
  | _ n ih =>
    intro c hc
    unfold natToLine at hc
    split at hc
    · simp only [List.mem_singleton] at hc
      exact hc ▸ digitChar_mem n
    · rcases List.mem_append.1 hc with h | h
      · exact ih (n / 10) (Nat.div_lt_self (by omega) (by omega)) c h
      · simp only [List.mem_singleton] at h
        exact h ▸ digitChar_mem (n % 10)

theorem natToLine_ne_nil (n : Nat) : natToLine n ≠ [] := by
  unfold natToLine
  split <;> simp

theorem natToLine_digit (n : Nat) : ∀ c ∈ natToLine n, c.isDigit = true := by
  intro c hc
  have := natToLine_mem n c hc
  fin_cases this <;> decide

theorem natToLine_not_ws (n : Nat) :
    ∀ c ∈ natToLine n, c.isWhitespace = false := by
  intro c hc
  have := natToLine_mem n c hc
  fin_cases this <;> decide

theorem digitChar_val (n : Nat) (h : n < 10) : (digitChar n).toNat - 48 = n := by
  interval_cases n <;> decide

theorem lineToNat_append_singleton (l : Line) (c : Char) :
    lineToNat (l ++ [c]) = lineToNat l * 10 + (c.toNat - 48) := by
  simp [lineToNat, List.foldl_append]

theorem lineToNat_natToLine (n : Nat) : lineToNat (natToLine n) = n := by
  induction n using Nat.strong_induction_on with
  | _ n ih =>
    unfold natToLine
    split
    · next h =>
      have : lineToNat [digitChar n] = (digitChar n).toNat - 48 := by
        simp [lineToNat]
      rw [this, digitChar_val n h]
    · next h =>
      rw [lineToNat_append_singleton,
        ih (n / 10) (Nat.div_lt_self (by omega) (by omega)),
        digitChar_val (n % 10) (Nat.mod_lt _ (by omega))]
      omega

/-! ## Generic text lemmas used by the parser proofs -/

theorem dropWhile_eq_self_of_all {p : Char → Bool} (l : Line)
    (h : l.all (fun c => !p c) = true) : l.dropWhile p = l := by
  induction l with
  | nil => rfl
  | cons c cs ih =>
    simp only [List.all_cons, Bool.and_eq_true, Bool.not_eq_true'] at h
    simp [List.dropWhile_cons, h.1, ih h.2]

theorem pySplitAux_append_nonws (w rest acc : Line)
    (h : w.all (fun c => !c.isWhitespace) = true) :
    pySplitAux (w ++ rest) acc = pySplitAux rest (w.reverse ++ acc) := by
  induction w generalizing acc with
  | nil => simp
  | cons c cs ih =>
    simp only [List.all_cons, Bool.and_eq_true, Bool.not_eq_true'] at h
    simp [pySplitAux, h.1, ih _ h.2]

theorem pySplitAux_all_nonws (d : Line)
    (h : d.all (fun c => !c.isWhitespace) = true) (hne : d ≠ []) :
    pySplitAux d [] = [d] := by
  have h2 : pySplitAux (d ++ []) [] = pySplitAux [] (d.reverse ++ []) :=
    pySplitAux_append_nonws d [] [] h
  simp only [List.append_nil] at h2
  rw [h2]
  simp [pySplitAux, hne]

theorem pyStrip_concat (l₁ : Line) (a : Char) (ha : a.isWhitespace = false)
    (hd : (l₁ ++ [a]).dropWhile Char.isWhitespace = l₁ ++ [a]) :
    pyStrip (l₁ ++ [a]) = l₁ ++ [a] := by
  unfold pyStrip
  rw [hd, List.reverse_append]
  simp [List.dropWhile_cons, ha]

theorem pyStrip_eq_self (l : Line) (h1 : l.dropWhile Char.isWhitespace = l)
    (h2 : ∃ l₁ a, l = l₁ ++ [a] ∧ a.isWhitespace = false) :
    pyStrip l = l := by
  obtain ⟨l₁, a, rfl, ha⟩ := h2
  exact pyStrip_concat l₁ a ha h1

/-! ## Modelled `otool -l` output

Modelled from the spec: the byte-level walk of the load-command region is
performed by the external `otool` collaborator, not by repository code.
Per the spec (§4.3, §8), for a Mach-O input `otool -l` prints one
`Load command i` block per load command, in on-disk order, each block
holding a `cmd <type>` line, a `cmdsize <n>` line and further detail
lines.  `renderRawFrom` produces that text for arbitrary block contents;
the `good*` predicates say the content lines cannot be mistaken for
block delimiters or field lines. -/

/-- The `Load command i` delimiter line printed before each block. -/
def markerLine (i : Nat) : Line := "Load command ".toList ++ natToLine i

/-- Lines before the first block (the Mach header dump) must not look
like a block delimiter once stripped. -/
def goodPre (l : Line) : Bool :=
  !(lcTag.isPrefixOf (pyStrip l))

/-- A raw block is a list of body lines, none of which strips to a
`Load command` delimiter. -/
def rawGood (b : List Line) : Bool :=
  b.all (fun l => !(lcTag.isPrefixOf (pyStrip l)))

/-- Render the blocks with their numbered delimiter lines, first index `k`. -/
def renderRawFrom : Nat → List (List Line) → List Line
  | _, [] => []
  | k, b :: bs => (markerLine k :: b) ++ renderRawFrom (k + 1) bs

/-- What the parser makes of one block body: fold the in-block step over
the stripped lines, starting from the fresh empty record. -/
def interpRaw (b : List Line) : LoadCmd :=
  b.foldl (fun c l => updateStep c (pyStrip l)) ⟨[], [], []⟩

/-- The pending-block flush at the end of `get_load_commands`. -/
def optFlush : Option LoadCmd → List LoadCmd
  | none => []
  | some c => [c]

/-- Close the parser state: already-emitted records plus the open block. -/
def finishState (st : List LoadCmd × Option LoadCmd) : List LoadCmd :=
  st.1 ++ optFlush st.2

theorem parseLoadCommands_eq_finish (lines : List Line) :
    parseLoadCommands lines = finishState (lines.foldl processLine ([], none)) := by
  cases h : (lines.foldl processLine ([], none)).2 <;>
    simp [parseLoadCommands, finishState, optFlush, h]

theorem pyStrip_markerLine (i : Nat) : pyStrip (markerLine i) = markerLine i := by
  obtain ⟨ys, a, hconcat⟩ := (List.eq_nil_or_concat (natToLine i)).resolve_left
    (natToLine_ne_nil i)
  rw [List.concat_eq_append] at hconcat
  have ha : a.isWhitespace = false :=
    natToLine_not_ws i a (hconcat ▸ List.mem_append_right ys (List.mem_singleton_self a))
  refine pyStrip_eq_self _ ?_ ⟨"Load command ".toList ++ ys, a, ?_, ha⟩
  · simp [markerLine, List.dropWhile_cons]
  · simp [markerLine, hconcat]

theorem markerLine_isMarker (i : Nat) :
    lcTag <+: markerLine i :=
  ⟨' ' :: natToLine i, rfl⟩

theorem not_prefix_of_isPrefixOf_false {l₁ l₂ : List Char}
    (h : l₁.isPrefixOf l₂ = false) : ¬(l₁ <+: l₂) := fun hp => by
  rw [List.isPrefixOf_iff_prefix.2 hp] at h
  exact absurd h (by decide)

theorem isPrefixOf_false_of_not_prefix {l₁ l₂ : List Char}
    (h : ¬(l₁ <+: l₂)) : l₁.isPrefixOf l₂ = false := by
  rw [← Bool.not_eq_true, List.isPrefixOf_iff_prefix]
  exact h

theorem processLine_marker (st : List LoadCmd × Option LoadCmd) (i : Nat) :
    processLine st (markerLine i) = (st.1 ++ optFlush st.2, some ⟨[], [], []⟩) := by
  unfold processLine
  rw [pyStrip_markerLine i]
  cases h : st.2 <;> simp [markerLine_isMarker i, optFlush, h]

theorem processLine_inBlock (st : List LoadCmd × Option LoadCmd) (line : Line)
    (c : LoadCmd) (hm : ¬(lcTag <+: pyStrip line))
    (hc : st.2 = some c) :
    processLine st line = (st.1, some (updateStep c (pyStrip line))) := by
  unfold processLine
  simp [hm, hc]

theorem run_pre (pre : List Line) (acc : List LoadCmd)
    (h : pre.all goodPre = true) :
    pre.foldl processLine (acc, none) = (acc, none) := by
  induction pre with
  | nil => rfl
  | cons l ls ih =>
    simp only [List.all_cons, Bool.and_eq_true] at h
    have hm : ¬(lcTag <+: pyStrip l) :=
      not_prefix_of_isPrefixOf_false (by simpa [goodPre] using h.1)
    rw [List.foldl_cons]
    have hstep : processLine (acc, none) l = (acc, none) := by
      unfold processLine
      simp [hm]
    rw [hstep]
    exact ih h.2

theorem run_block (b : List Line)
    (h : rawGood b = true) (acc : List LoadCmd) (c : LoadCmd) :
    b.foldl processLine (acc, some c) =
      (acc, some (b.foldl (fun c l => updateStep c (pyStrip l)) c)) := by
  induction b generalizing c with
  | nil => rfl
  | cons l ls ih =>
    simp only [rawGood, List.all_cons, Bool.and_eq_true] at h
    have hm : ¬(lcTag <+: pyStrip l) :=
      not_prefix_of_isPrefixOf_false (by simpa using h.1)
    rw [List.foldl_cons, processLine_inBlock _ _ _ hm rfl, List.foldl_cons]
    exact ih h.2 _

theorem run_blocks (blocks : List (List Line)) (k : Nat) (acc : List LoadCmd)
    (cur : Option LoadCmd) (h : blocks.all rawGood = true) :
    finishState ((renderRawFrom k blocks).foldl processLine (acc, cur)) =
      acc ++ optFlush cur ++ blocks.map interpRaw := by
  induction blocks generalizing k acc cur with
  | nil => simp [renderRawFrom, finishState]
  | cons b bs ih =>
    simp only [List.all_cons, Bool.and_eq_true] at h
    rw [renderRawFrom, List.cons_append, List.foldl_cons, processLine_marker,
      List.foldl_append, run_block b h.1]
    rw [ih (k + 1) _ _ h.2]
    simp [interpRaw, optFlush]

/-- The central parse theorem: on well-shaped `otool -l` text the parser
returns one record per block, in order, each the in-block fold of its
stripped body lines. -/
theorem parse_renderRaw (pre : List Line) (blocks : List (List Line))
    (hp : pre.all goodPre = true) (hb : blocks.all rawGood = true) :
    parseLoadCommands (pre ++ renderRawFrom 0 blocks) = blocks.map interpRaw := by
  rw [parseLoadCommands_eq_finish, List.foldl_append, run_pre pre [] hp,
    run_blocks blocks 0 [] none hb]
  simp [optFlush]

/-! ## Structured blocks (thin-binary load commands) -/

/-- Modelled from the spec: one well-formed load command as `otool -l`
prints it — a `cmd <name>` line, a `cmdsize <n>` decimal line, then
type-specific detail lines. -/
structure CmdBlock where
  name : Line
  size : Nat
  extras : List Line
deriving DecidableEq

/-- The rendered body lines of one block. -/
def blockLines (b : CmdBlock) : List Line :=
  (cmdTag ++ b.name) :: (szTag ++ natToLine b.size) :: b.extras

/-- Command-type names are nonempty and whitespace-free (e.g.
`LC_SEGMENT_64`). -/
def goodName (n : Line) : Bool :=
  !n.isEmpty && n.all (fun c => !c.isWhitespace)

/-- Extra detail lines must not strip to a delimiter or a field line. -/
def goodExtra (e : Line) : Bool :=
  !(lcTag.isPrefixOf (pyStrip e)) && !(cmdTag.isPrefixOf (pyStrip e)) &&
    !(szTag.isPrefixOf (pyStrip e))

def goodBlock (b : CmdBlock) : Bool :=
  goodName b.name && b.extras.all goodExtra

/-- The record the parser produces for a well-formed block. -/
def interpBlock (b : CmdBlock) : LoadCmd :=
  ⟨b.name, natToLine b.size,
    (cmdTag ++ b.name) :: (szTag ++ natToLine b.size) :: b.extras.map pyStrip⟩

/-- Full modelled `otool -l` output: the header dump (`pre`), then the
numbered load-command blocks in on-disk order (spec §4.3: one record per
command, order preserved). -/
def otoolLoadOutput (pre : List Line) (blocks : List CmdBlock) : List Line :=
  pre ++ renderRawFrom 0 (blocks.map blockLines)

theorem goodName_parts {n : Line} (h : goodName n = true) :
    n ≠ [] ∧ n.all (fun c => !c.isWhitespace) = true := by
  simp only [goodName, Bool.and_eq_true, Bool.not_eq_true',
    List.isEmpty_eq_false, List.isEmpty_iff] at h
  exact h

theorem pyStrip_cmdLine (name : Line) (h : goodName name = true) :
    pyStrip (cmdTag ++ name) = cmdTag ++ name := by
  obtain ⟨hne, hall⟩ := goodName_parts h
  obtain ⟨ys, a, hconcat⟩ := (List.eq_nil_or_concat name).resolve_left hne
  rw [List.concat_eq_append] at hconcat
  have ha : a.isWhitespace = false := by
    have := hconcat ▸ List.mem_append_right ys (List.mem_singleton_self a)
    simpa using List.all_eq_true.1 hall a this
  refine pyStrip_eq_self _ ?_ ⟨cmdTag ++ ys, a, ?_, ha⟩
  · simp [cmdTag, List.dropWhile_cons]
  · simp [hconcat]

theorem pyStrip_szLine (n : Nat) :
    pyStrip (szTag ++ natToLine n) = szTag ++ natToLine n := by
  obtain ⟨ys, a, hconcat⟩ := (List.eq_nil_or_concat (natToLine n)).resolve_left
    (natToLine_ne_nil n)
  rw [List.concat_eq_append] at hconcat
  have ha : a.isWhitespace = false :=
    natToLine_not_ws n a (hconcat ▸ List.mem_append_right ys (List.mem_singleton_self a))
  refine pyStrip_eq_self _ ?_ ⟨szTag ++ ys, a, ?_, ha⟩
  · simp [szTag, List.dropWhile_cons]
  · simp [hconcat]

theorem cmdLine_isCmd (name : Line) : cmdTag <+: cmdTag ++ name :=
  ⟨name, rfl⟩

theorem szLine_isSz (d : Line) : szTag <+: szTag ++ d :=
  ⟨d, rfl⟩

theorem cmdLine_not_marker (name : Line) : ¬(lcTag <+: cmdTag ++ name) :=
  not_prefix_of_isPrefixOf_false (by simp [lcTag, cmdTag, List.isPrefixOf])

theorem szLine_not_marker (d : Line) : ¬(lcTag <+: szTag ++ d) :=
  not_prefix_of_isPrefixOf_false (by simp [lcTag, szTag, List.isPrefixOf])

theorem szLine_not_cmd (d : Line) : ¬(cmdTag <+: szTag ++ d) :=
  not_prefix_of_isPrefixOf_false (by simp [cmdTag, szTag, List.isPrefixOf])

theorem pySplitMax_one_cmdLine (name : Line) (h : goodName name = true) :
    pySplitMax 1 (cmdTag ++ name) = ["cmd".toList, name] := by
  obtain ⟨hne, hall⟩ := goodName_parts h
  show pySplitMax 1 ('c' :: 'm' :: 'd' :: ' ' :: name) = _
  rw [pySplitMax]
  simp only [List.dropWhile_cons]
  norm_num
  rw [pySplitMax]
  simp [List.dropWhile_cons, dropWhile_eq_self_of_all name hall, hne,
    List.takeWhile_cons]

theorem pySplit_szLine (d : Line)
    (hall : d.all (fun c => !c.isWhitespace) = true) (hne : d ≠ []) :
    pySplit (szTag ++ d) = ["cmdsize".toList, d] := by
  have h0 : pySplit (szTag ++ d) =
      pySplitAux ("cmdsize".toList ++ (' ' :: d)) [] := rfl
  have h1 : pySplitAux ("cmdsize".toList ++ (' ' :: d)) [] =
      pySplitAux (' ' :: d) ("cmdsize".toList.reverse ++ []) :=
    pySplitAux_append_nonws _ _ _ (by decide)
  rw [h0, h1]
  simp [pySplitAux, pySplitAux_all_nonws d hall hne]

/-! ## Interpretation of block bodies -/

theorem setFields_details (c : LoadCmd) (l : Line) :
    (setFields c l).details = c.details := by
  unfold setFields
  repeat' split
  all_goals rfl

theorem setFields_command_of_not_cmd (c : LoadCmd) (l : Line)
    (h : ¬(cmdTag <+: l)) : (setFields c l).command = c.command := by
  unfold setFields
  rw [if_neg (by simpa [List.isPrefixOf_iff_prefix] using h)]
  split
  · split
    all_goals rfl
  · rfl

theorem setFields_cmdsize_of_not_sz (c : LoadCmd) (l : Line)
    (h : ¬(szTag <+: l)) : (setFields c l).cmdsize = c.cmdsize := by
  unfold setFields
  split
  · split
    all_goals rfl
  · rw [if_neg (by simpa [List.isPrefixOf_iff_prefix] using h)]

theorem setFields_skip (c : LoadCmd) (l : Line)
    (h1 : ¬(cmdTag <+: l)) (h2 : ¬(szTag <+: l)) : setFields c l = c := by
  unfold setFields
  rw [if_neg (by simpa [List.isPrefixOf_iff_prefix] using h1),
    if_neg (by simpa [List.isPrefixOf_iff_prefix] using h2)]

theorem foldl_extras (es : List Line) (h : es.all goodExtra = true)
    (c : LoadCmd) :
    es.foldl (fun c l => updateStep c (pyStrip l)) c =
      ⟨c.command, c.cmdsize, c.details ++ es.map pyStrip⟩ := by
  induction es generalizing c with
  | nil => simp
  | cons e es ih =>
    simp only [List.all_cons, Bool.and_eq_true] at h
    have hg := h.1
    simp only [goodExtra, Bool.and_eq_true, Bool.not_eq_true'] at hg
    have h1 : ¬(cmdTag <+: pyStrip e) := not_prefix_of_isPrefixOf_false hg.1.2
    have h2 : ¬(szTag <+: pyStrip e) := not_prefix_of_isPrefixOf_false hg.2
    have hstep : updateStep c (pyStrip e) =
        ⟨c.command, c.cmdsize, c.details ++ [pyStrip e]⟩ := by
      simp [updateStep, setFields_skip c (pyStrip e) h1 h2]
    rw [List.foldl_cons, hstep, ih h.2]
    simp

theorem interpRaw_blockLines (b : CmdBlock) (h : goodBlock b = true) :
    interpRaw (blockLines b) = interpBlock b := by
  simp only [goodBlock, Bool.and_eq_true] at h
  obtain ⟨hname, hext⟩ := h
  obtain ⟨hne, hall⟩ := goodName_parts hname
  unfold interpRaw blockLines
  rw [List.foldl_cons, List.foldl_cons]
  have hstep1 : updateStep ⟨[], [], []⟩ (pyStrip (cmdTag ++ b.name)) =
      ⟨b.name, [], [cmdTag ++ b.name]⟩ := by
    rw [pyStrip_cmdLine b.name hname]
    unfold updateStep setFields
    rw [if_pos (by simpa [List.isPrefixOf_iff_prefix] using cmdLine_isCmd b.name),
      pySplitMax_one_cmdLine b.name hname]
    rfl
  have hstep2 : updateStep ⟨b.name, [], [cmdTag ++ b.name]⟩
      (pyStrip (szTag ++ natToLine b.size)) =
      ⟨b.name, natToLine b.size,
        [cmdTag ++ b.name, szTag ++ natToLine b.size]⟩ := by
    rw [pyStrip_szLine b.size]
    unfold updateStep setFields
    rw [if_neg (by simpa [List.isPrefixOf_iff_prefix] using
        szLine_not_cmd (natToLine b.size)),
      if_pos (by simpa [List.isPrefixOf_iff_prefix] using
        szLine_isSz (natToLine b.size)),
      pySplit_szLine (natToLine b.size) (by
        simpa using fun c hc => natToLine_not_ws b.size c hc)
        (natToLine_ne_nil b.size)]
    rfl
  rw [hstep1, hstep2, foldl_extras b.extras hext]
  rfl

theorem rawGood_blockLines (b : CmdBlock) (h : goodBlock b = true) :
    rawGood (blockLines b) = true := by
  simp only [goodBlock, Bool.and_eq_true] at h
  obtain ⟨hname, hext⟩ := h
  simp only [rawGood, blockLines, List.all_cons, Bool.and_eq_true]
  refine ⟨?_, ?_, ?_⟩
  · rw [pyStrip_cmdLine b.name hname, Bool.not_eq_true']
    exact isPrefixOf_false_of_not_prefix (cmdLine_not_marker b.name)
  · rw [pyStrip_szLine b.size, Bool.not_eq_true']
    exact isPrefixOf_false_of_not_prefix (szLine_not_marker (natToLine b.size))
  · refine List.all_eq_true.2 fun l hl => ?_
    have := List.all_eq_true.1 hext l hl
    simp only [goodExtra, Bool.and_eq_true] at this
    simpa using this.1.1

/-- Block-level parse theorem: on well-shaped `otool -l` output the
parser returns one `LoadCmd` per rendered block, in order, with the
block's `cmd` name, its decimal `cmdsize`, and all stripped body lines
as details. -/
theorem parse_otoolLoadOutput (pre : List Line) (blocks : List CmdBlock)
    (hp : pre.all goodPre = true) (hb : blocks.all goodBlock = true) :
    parseLoadCommands (otoolLoadOutput pre blocks) = blocks.map interpBlock := by
  unfold otoolLoadOutput
  rw [parse_renderRaw pre _ hp (by
    refine List.all_eq_true.2 fun lb hlb => ?_
    obtain ⟨b, hb', rfl⟩ := List.mem_map.1 hlb
    exact rawGood_blockLines b (List.all_eq_true.1 hb b hb'))]
  rw [List.map_map]
  exact List.map_congr_left fun b hb' =>
    interpRaw_blockLines b (List.all_eq_true.1 hb b hb')

/-! ## `get_mach_header_info` (machob_harvester.py lines 85-122) -/

/-- One header tuple as `get_mach_header_info` extracts it from a line of
`otool -hv` output (all fields still text at this stage). -/
structure HeaderRec where
  magic : Line
  cputype : Line
  cpusubtype : Line
  caps : Line
  filetype : Line
  ncmds : Line
  sizeofcmds : Line
  flags : Line
deriving DecidableEq

/-- `re.match(r'(MH_|0x)', line)`: the stripped line starts with `MH_`
or `0x`. -/
def headerLineMatch (l : Line) : Bool :=
  "MH_".toList.isPrefixOf l || "0x".toList.isPrefixOf l

/-- `" ".join(parts)`. -/
def joinSpace (ls : List Line) : Line := List.intercalate [' '] ls

/-- The second loop of `get_mach_header_info`: split a candidate line;
lines with fewer than 7 fields are skipped (`continue`); `flags` is the
join of fields 8 onward (empty when absent). -/
def headerOfLine (l : Line) : Option HeaderRec :=
  match pySplit l with
  | magic :: cput :: cpus :: caps :: ft :: nc :: sz :: rest =>
    some ⟨magic, cput, cpus, caps, ft, nc, sz, joinSpace rest⟩
  | _ => none

/-- Both loops of `get_mach_header_info` over the `otool -hv` text:
strip, keep candidate lines, decode each. -/
def parseHeaders (lines : List Line) : List HeaderRec :=
  ((lines.map pyStrip).filter headerLineMatch).filterMap headerOfLine

/-- `get_mach_header_info`: only `CalledProcessError` is caught (returns
`[]`); an OS-level error propagates. -/
def get_mach_header_info : OtoolResult → Except Unit (List HeaderRec)
  | .ok lines => .ok (parseHeaders lines)
  | .processError => .ok []
  | .fileNotFound => .error ()

/-! ## `get_arm64_instructions` (machob_harvester.py lines 125-152) -/

/-- The regex class `[0-9A-Fa-f]`. -/
def isHexChar (c : Char) : Bool :=
  c.isDigit || ('a' ≤ c && c ≤ 'f') || ('A' ≤ c && c ≤ 'F')

/-- `re.match(r'^[0-9A-Fa-f]+\s', line)`: one or more leading hex digits
followed by a whitespace character. -/
def hexAddrMatch (l : Line) : Bool :=
  let r := l.takeWhile isHexChar
  !r.isEmpty &&
    (match l.drop r.length with
     | c :: _ => c.isWhitespace
     | [] => false)

/-- `get_arm64_instructions`: both `CalledProcessError` and
`FileNotFoundError` are caught and yield `[]`; otherwise collect
`parts[1]` of each stripped line with a leading address
(`split(None, 2)`, at least 2 parts). -/
def get_arm64_instructions : OtoolResult → List Line
  | .processError => []
  | .fileNotFound => []
  | .ok lines =>
    lines.foldl (fun acc line =>
      let l := pyStrip line
      if hexAddrMatch l then
        match pySplitMax 2 l with
        | _ :: v :: _ => acc ++ [v]
        | _ => acc
      else acc) []

/-! ## The SQLite store

Rows are modelled positionally; `AUTOINCREMENT` ids are `length + 1`
(valid for this system, which never deletes rows).  `conn.commit()` has
no observable effect in this embedding: no settled claim examines the
database state after an uncaught exception, which is the only point
where commit boundaries would be visible. -/

/-- A `binary_header` row as `process_file` inserts it: `ncmds` and
`sizeofcmds` become integers via `int(x) if x.isdigit() else None`. -/
structure StoredHeader where
  binaryId : Nat
  magic : Line
  cputype : Line
  cpusubtype : Line
  caps : Line
  filetype : Line
  ncmds : Option Nat
  sizeofcmds : Option Nat
  flags : Line
deriving DecidableEq

/-- A `load_commands` row: `details` is the newline-join of the detail
lines. -/
structure LCRow where
  rowId : Nat
  binaryId : Nat
  command : Line
  cmdsize : Line
  details : Line
deriving DecidableEq

/-- An `arm_asm_instructions` row. -/
structure ArmRow where
  rowId : Nat
  binaryId : Nat
  instruction : Line
deriving DecidableEq

/-- The four data tables of `mach_o_binaries.db`. -/
structure DB where
  binaries : List (Nat × String)
  headers : List StoredHeader
  loadRows : List LCRow
  armRows : List ArmRow
deriving DecidableEq

/-- `"\n".join(details)`. -/
def joinNl (ls : List Line) : Line := List.intercalate ['\n'] ls

/-- `INSERT INTO binary (path) VALUES (?)` plus `cursor.lastrowid`. -/
def insertBinary (db : DB) (path : String) : DB × Nat :=
  let id := db.binaries.length + 1
  ({ db with binaries := db.binaries ++ [(id, path)] }, id)

/-- One `INSERT INTO binary_header` from the loop in `process_file`. -/
def storeHeaderRow (binaryId : Nat) (db : DB) (h : HeaderRec) : DB :=
  { db with headers := db.headers ++
      [⟨binaryId, h.magic, h.cputype, h.cpusubtype, h.caps, h.filetype,
        intIfDigit h.ncmds, intIfDigit h.sizeofcmds, h.flags⟩] }

/-- One `INSERT INTO load_commands` from `store_load_commands`. -/
def insertLCRow (binaryId : Nat) (db : DB) (c : LoadCmd) : DB :=
  { db with loadRows := db.loadRows ++
      [⟨db.loadRows.length + 1, binaryId, c.command, c.cmdsize,
        joinNl c.details⟩] }

/-- `store_load_commands` (machob_harvester.py lines 221-235): insert
the records one by one, in list order. -/
def store_load_commands (binaryId : Nat) (cmds : List LoadCmd) (db : DB) : DB :=
  cmds.foldl (insertLCRow binaryId) db

/-- One `INSERT INTO arm_asm_instructions`. -/
def insertArmRow (binaryId : Nat) (db : DB) (instr : Line) : DB :=
  { db with armRows := db.armRows ++
      [⟨db.armRows.length + 1, binaryId, instr⟩] }

/-- `store_arm64_instructions` (machob_harvester.py lines 155-164). -/
def store_arm64_instructions (binaryId : Nat) (instrs : List Line) (db : DB) : DB :=
  instrs.foldl (insertArmRow binaryId) db

/-! ## `process_file` and `walk_directory` (lines 238-301) -/

/-- Everything the scanner can observe about one directory entry: its
path, whether `os.path.isfile` holds, the bytes `is_mach_o` reads
(`none` = read fails), and the outcome of each `otool` invocation. -/
structure FileEntry where
  path : String
  isFile : Bool
  content : Option (List Nat)
  otoolHv : OtoolResult
  otoolArm : OtoolResult
  otoolL : OtoolResult
deriving DecidableEq

/-- `process_file`: insert the binary row, store each header tuple,
store ARM64 instructions when nonempty, store load commands when
nonempty.  An uncaught exception in `get_mach_header_info` or
`get_load_commands` propagates (`Except.error`). -/
def process_file (f : FileEntry) (db : DB) : Except Unit DB :=
  let p := insertBinary db f.path
  match get_mach_header_info f.otoolHv with
  | .error e => .error e
  | .ok headerList =>
    let db1 := headerList.foldl (storeHeaderRow p.2) p.1
    let instrs := get_arm64_instructions f.otoolArm
    let db2 := if instrs.isEmpty then db1
      else store_arm64_instructions p.2 instrs db1
    match get_load_commands f.otoolL with
    | .error e => .error e
    | .ok cmds =>
      .ok (if cmds.isEmpty then db2 else store_load_commands p.2 cmds db2)

/-- One iteration of the walk: skip non-files (`os.path.isfile` guard),
sniff the magic, process hits; an exception raised by `process_file`
aborts the remaining walk (there is no handler in `walk_directory`). -/
def walkStep (st : Except Unit DB) (f : FileEntry) : Except Unit DB :=
  match st with
  | .error e => .error e
  | .ok db =>
    if !f.isFile then .ok db
    else if is_mach_o f.content then process_file f db
    else .ok db

/-- `walk_directory`: fold the walk over the directory entries in
traversal order. -/
def walk_directory (files : List FileEntry) (db : DB) : Except Unit DB :=
  files.foldl walkStep (.ok db)

/-- Claim C1: for a well-formed thin 64-bit Mach-O input whose header
declares `ncmds = N` — modelled as `otool -l` text with `N` well-formed
blocks whose declared sizes sum to `sizeofcmds` — `get_load_commands`
returns exactly `N` records and the numeric values of their `cmdsize`
fields sum to `sizeofcmds`. -/
theorem get_load_commands_count_and_sum
    (pre : List Line) (blocks : List CmdBlock) (ncmds sizeofcmds : Nat)
    (hp : pre.all goodPre = true) (hb : blocks.all goodBlock = true)
    (hn : blocks.length = ncmds)
    (hs : (blocks.map (fun b => b.size)).sum = sizeofcmds) :
    get_load_commands (.ok (otoolLoadOutput pre blocks)) =
      .ok (parseLoadCommands (otoolLoadOutput pre blocks)) ∧
    (parseLoadCommands (otoolLoadOutput pre blocks)).length = ncmds ∧
    ((parseLoadCommands (otoolLoadOutput pre blocks)).map
        (fun c => lineToNat c.cmdsize)).sum = sizeofcmds := by
  refine ⟨rfl, ?_, ?_⟩
  · rw [parse_otoolLoadOutput pre blocks hp hb, List.length_map, hn]
  · rw [parse_otoolLoadOutput pre blocks hp hb, List.map_map]
    rw [show ((fun c : LoadCmd => lineToNat c.cmdsize) ∘ interpBlock) =
        fun b : CmdBlock => b.size from
      funext fun b => by simp [interpBlock, lineToNat_natToLine]]
    exact hs

/-- Witness for C1: a two-command thin binary (`ncmds = 2`,
`sizeofcmds = 96`). -/
theorem get_load_commands_count_and_sum_witness :
    get_load_commands (.ok (otoolLoadOutput
        ["Mach header".toList,
         "0xfeedfacf 16777228 0 0x00 EXECUTE 2 96 NOUNDEFS PIE".toList]
        [⟨"LC_SEGMENT_64".toList, 72, ["segname __TEXT".toList]⟩,
         ⟨"LC_SYMTAB".toList, 24, []⟩])) =
      .ok (parseLoadCommands (otoolLoadOutput
        ["Mach header".toList,
         "0xfeedfacf 16777228 0 0x00 EXECUTE 2 96 NOUNDEFS PIE".toList]
        [⟨"LC_SEGMENT_64".toList, 72, ["segname __TEXT".toList]⟩,
         ⟨"LC_SYMTAB".toList, 24, []⟩])) ∧
    (parseLoadCommands (otoolLoadOutput
        ["Mach header".toList,
         "0xfeedfacf 16777228 0 0x00 EXECUTE 2 96 NOUNDEFS PIE".toList]
        [⟨"LC_SEGMENT_64".toList, 72, ["segname __TEXT".toList]⟩,
         ⟨"LC_SYMTAB".toList, 24, []⟩])).length = 2 ∧
    ((parseLoadCommands (otoolLoadOutput
        ["Mach header".toList,
         "0xfeedfacf 16777228 0 0x00 EXECUTE 2 96 NOUNDEFS PIE".toList]
        [⟨"LC_SEGMENT_64".toList, 72, ["segname __TEXT".toList]⟩,
         ⟨"LC_SYMTAB".toList, 24, []⟩])).map
        (fun c => lineToNat c.cmdsize)).sum = 96 :=
  get_load_commands_count_and_sum _ _ 2 96
    (by decide) (by decide) (by decide) (by decide)

/-- Claim C3 counterexample: on a truncated input for which the `otool -l`
subprocess fails (`CalledProcessError`), `get_load_commands` returns the
empty list and reports nothing — there is no
`TruncatedLoadCommands`/`LoadCommandSizeMismatch` anywhere in the code,
and the partial text printed by the failing `otool` is discarded by
`subprocess.check_output`, so the result is empty rather than the
partial record set the claim requires. -/
theorem get_load_commands_truncation_counterexample :
    get_load_commands .processError = .ok ([] : List LoadCmd) := rfl

/-- Claim C3 (amended): `get_load_commands` performs no size validation
and reports no truncation condition.  If the `otool` invocation fails it
returns the empty list; if `otool` prints only `K < ncmds` blocks of a
truncated load-command region, the parser silently returns exactly those
`K` records (the partial set, nonempty as soon as one block printed). -/
theorem get_load_commands_truncated_partial
    (pre : List Line) (blocks : List CmdBlock) (ncmds : Nat)
    (hp : pre.all goodPre = true) (hb : blocks.all goodBlock = true)
    (htrunc : blocks.length < ncmds) :
    get_load_commands (.ok (otoolLoadOutput pre blocks)) =
      .ok (blocks.map interpBlock) ∧
    (blocks.map interpBlock).length = blocks.length ∧
    (blocks ≠ [] → blocks.map interpBlock ≠ []) ∧
    get_load_commands .processError = .ok ([] : List LoadCmd) := by
  refine ⟨?_, by simp, by simp, rfl⟩
  show Except.ok (parseLoadCommands _) = _
  rw [parse_otoolLoadOutput pre blocks hp hb]

/-- Witness for C3 (amended): `otool` printed one of three declared
commands; the parser returns that single record. -/
theorem get_load_commands_truncated_partial_witness :
    get_load_commands (.ok (otoolLoadOutput
        ["Mach header".toList]
        [⟨"LC_SYMTAB".toList, 24, []⟩])) =
      .ok ([⟨"LC_SYMTAB".toList, 24, []⟩].map interpBlock) ∧
    ([(⟨"LC_SYMTAB".toList, 24, []⟩ : CmdBlock)].map interpBlock).length =
      [(⟨"LC_SYMTAB".toList, 24, []⟩ : CmdBlock)].length ∧
    ([(⟨"LC_SYMTAB".toList, 24, []⟩ : CmdBlock)] ≠ [] →
      [(⟨"LC_SYMTAB".toList, 24, []⟩ : CmdBlock)].map interpBlock ≠ []) ∧
    get_load_commands .processError = .ok ([] : List LoadCmd) :=
  get_load_commands_truncated_partial
    ["Mach header".toList] [⟨"LC_SYMTAB".toList, 24, []⟩] 3
    (by decide) (by decide) (by decide)

/-! ## Order preservation through the store (for C9) -/

/-- The rows `store_load_commands` appends when the table already holds
`off` rows: ids ascend from `off + 1`, one row per record, in order. -/
def storedRowsFrom (off binaryId : Nat) : List LoadCmd → List LCRow
  | [] => []
  | c :: cs =>
    ⟨off + 1, binaryId, c.command, c.cmdsize, joinNl c.details⟩ ::
      storedRowsFrom (off + 1) binaryId cs

theorem store_load_commands_loadRows (binaryId : Nat) (cmds : List LoadCmd)
    (db : DB) :
    (store_load_commands binaryId cmds db).loadRows =
      db.loadRows ++ storedRowsFrom db.loadRows.length binaryId cmds := by
  induction cmds generalizing db with
  | nil => simp [store_load_commands, storedRowsFrom]
  | cons c cs ih =>
    show (store_load_commands binaryId cs (insertLCRow binaryId db c)).loadRows = _
    rw [ih]
    simp [insertLCRow, storedRowsFrom]

theorem store_load_commands_other_tables (binaryId : Nat)
    (cmds : List LoadCmd) (db : DB) :
    (store_load_commands binaryId cmds db).binaries = db.binaries ∧
    (store_load_commands binaryId cmds db).headers = db.headers ∧
    (store_load_commands binaryId cmds db).armRows = db.armRows := by
  induction cmds generalizing db with
  | nil => exact ⟨rfl, rfl, rfl⟩
  | cons c cs ih => exact ih (insertLCRow binaryId db c)

theorem storedRowsFrom_fields (off binaryId : Nat) (cmds : List LoadCmd) :
    (storedRowsFrom off binaryId cmds).map
        (fun r => (r.binaryId, r.command, r.cmdsize, r.details)) =
      cmds.map (fun c => (binaryId, c.command, c.cmdsize, joinNl c.details)) := by
  induction cmds generalizing off with
  | nil => rfl
  | cons c cs ih => simp [storedRowsFrom, ih]

theorem storedRowsFrom_rowIds (off binaryId : Nat) (cmds : List LoadCmd) :
    (storedRowsFrom off binaryId cmds).map (fun r => r.rowId) =
      List.range' (off + 1) cmds.length := by
  induction cmds generalizing off with
  | nil => rfl
  | cons c cs ih => simp [storedRowsFrom, ih, List.range']

/-- Claim C9: the parsed record sequence is in on-disk block order, and
`store_load_commands` appends one row per record at the end of the
table, in that same order, with consecutive ascending row ids — so the
i-th stored row is the i-th load command encountered in the input. -/
theorem load_commands_order_preserved
    (pre : List Line) (blocks : List CmdBlock) (binaryId : Nat) (db : DB)
    (hp : pre.all goodPre = true) (hb : blocks.all goodBlock = true) :
    parseLoadCommands (otoolLoadOutput pre blocks) = blocks.map interpBlock ∧
    (store_load_commands binaryId
        (parseLoadCommands (otoolLoadOutput pre blocks)) db).loadRows =
      db.loadRows ++
        storedRowsFrom db.loadRows.length binaryId (blocks.map interpBlock) ∧
    (storedRowsFrom db.loadRows.length binaryId
          (blocks.map interpBlock)).map
        (fun r => (r.command, r.cmdsize)) =
      blocks.map (fun b => (b.name, natToLine b.size)) ∧
    (storedRowsFrom db.loadRows.length binaryId
          (blocks.map interpBlock)).map (fun r => r.rowId) =
      List.range' (db.loadRows.length + 1) blocks.length := by
  have hparse := parse_otoolLoadOutput pre blocks hp hb
  refine ⟨hparse, ?_, ?_, ?_⟩
  · rw [hparse, store_load_commands_loadRows]
  · have := congrArg (List.map (fun p : Nat × Line × Line × Line =>
        (p.2.1, p.2.2.1)))
      (storedRowsFrom_fields db.loadRows.length binaryId (blocks.map interpBlock))
    simpa [Function.comp, interpBlock] using this
  · rw [storedRowsFrom_rowIds, List.length_map]

/-- Witness for C9: two commands stored into a table that already holds
one row for another binary; row ids continue at 2 and 3, in parse
order. -/
theorem load_commands_order_preserved_witness :
    parseLoadCommands (otoolLoadOutput ["Mach header".toList]
        [⟨"LC_SEGMENT_64".toList, 72, []⟩, ⟨"LC_UUID".toList, 24, []⟩]) =
      [⟨"LC_SEGMENT_64".toList, 72, []⟩,
        (⟨"LC_UUID".toList, 24, []⟩ : CmdBlock)].map interpBlock ∧
    (store_load_commands 7
        (parseLoadCommands (otoolLoadOutput ["Mach header".toList]
          [⟨"LC_SEGMENT_64".toList, 72, []⟩, ⟨"LC_UUID".toList, 24, []⟩]))
        ⟨[(1, "old")], [], [⟨1, 1, "LC_MAIN".toList, "80".toList, []⟩], []⟩
        ).loadRows =
      [⟨1, 1, "LC_MAIN".toList, "80".toList, []⟩] ++
        storedRowsFrom 1 7
          ([⟨"LC_SEGMENT_64".toList, 72, []⟩,
            (⟨"LC_UUID".toList, 24, []⟩ : CmdBlock)].map interpBlock) ∧
    (storedRowsFrom 1 7
          ([⟨"LC_SEGMENT_64".toList, 72, []⟩,
            (⟨"LC_UUID".toList, 24, []⟩ : CmdBlock)].map interpBlock)).map
        (fun r => (r.command, r.cmdsize)) =
      [⟨"LC_SEGMENT_64".toList, 72, []⟩,
        (⟨"LC_UUID".toList, 24, []⟩ : CmdBlock)].map
        (fun b => (b.name, natToLine b.size)) ∧
    (storedRowsFrom 1 7
          ([⟨"LC_SEGMENT_64".toList, 72, []⟩,
            (⟨"LC_UUID".toList, 24, []⟩ : CmdBlock)].map interpBlock)).map
        (fun r => r.rowId) = List.range' 2 2 :=
  load_commands_order_preserved ["Mach header".toList]
    [⟨"LC_SEGMENT_64".toList, 72, []⟩, ⟨"LC_UUID".toList, 24, []⟩] 7
    ⟨[(1, "old")], [], [⟨1, 1, "LC_MAIN".toList, "80".toList, []⟩], []⟩
    (by decide) (by decide)

/-! ## Details accumulation (for C10) -/

theorem interpRaw_details_aux (b : List Line) :
    ∀ c : LoadCmd,
      (b.foldl (fun c l => updateStep c (pyStrip l)) c).details =
        c.details ++ b.map pyStrip := by
  induction b with
  | nil => intro c; simp
  | cons e es ih =>
    intro c
    rw [List.foldl_cons, ih]
    simp [updateStep, setFields_details]

theorem interpRaw_command_aux (b : List Line) :
    ∀ c : LoadCmd, b.all (fun l => !(cmdTag.isPrefixOf (pyStrip l))) = true →
      (b.foldl (fun c l => updateStep c (pyStrip l)) c).command = c.command := by
  induction b with
  | nil => intro c _; rfl
  | cons e es ih =>
    intro c h
    simp only [List.all_cons, Bool.and_eq_true, Bool.not_eq_true'] at h
    rw [List.foldl_cons, ih _ h.2]
    simp [updateStep, setFields_command_of_not_cmd c (pyStrip e)
      (not_prefix_of_isPrefixOf_false h.1)]

theorem interpRaw_cmdsize_aux (b : List Line) :
    ∀ c : LoadCmd, b.all (fun l => !(szTag.isPrefixOf (pyStrip l))) = true →
      (b.foldl (fun c l => updateStep c (pyStrip l)) c).cmdsize = c.cmdsize := by
  induction b with
  | nil => intro c _; rfl
  | cons e es ih =>
    intro c h
    simp only [List.all_cons, Bool.and_eq_true, Bool.not_eq_true'] at h
    rw [List.foldl_cons, ih _ h.2]
    simp [updateStep, setFields_cmdsize_of_not_sz c (pyStrip e)
      (not_prefix_of_isPrefixOf_false h.1)]

/-- Claim C10: each record's `details` payload holds, in order, every
stripped line of that command's block — including the `cmd` and
`cmdsize` lines themselves, hence duplicated relative to the typed
fields — and the `command` (resp. `cmdsize`) field stays the empty
string whenever no line of the block strips to a `cmd ` (resp.
`cmdsize `) prefix. -/
theorem load_command_details_complete
    (pre : List Line) (blocks : List (List Line))
    (hp : pre.all goodPre = true) (hb : blocks.all rawGood = true) :
    parseLoadCommands (pre ++ renderRawFrom 0 blocks) = blocks.map interpRaw ∧
    ∀ b ∈ blocks,
      (interpRaw b).details = b.map pyStrip ∧
      (b.all (fun l => !(cmdTag.isPrefixOf (pyStrip l))) = true →
        (interpRaw b).command = []) ∧
      (b.all (fun l => !(szTag.isPrefixOf (pyStrip l))) = true →
        (interpRaw b).cmdsize = []) := by
  refine ⟨parse_renderRaw pre blocks hp hb, fun b _ => ⟨?_, ?_, ?_⟩⟩
  · simpa using interpRaw_details_aux b ⟨[], [], []⟩
  · exact fun h => interpRaw_command_aux b _ h
  · exact fun h => interpRaw_cmdsize_aux b _ h

/-- Witness for C10: a block with `cmd`/`cmdsize` lines (both land in
`details`) and a field-less block (both typed fields stay empty). -/
theorem load_command_details_complete_witness :
    parseLoadCommands (["hdr".toList] ++ renderRawFrom 0
        [["  cmd LC_MAIN".toList, " cmdsize 80".toList],
         ["  entryoff 1234".toList]]) =
      [["  cmd LC_MAIN".toList, " cmdsize 80".toList],
       ["  entryoff 1234".toList]].map interpRaw ∧
    (interpRaw ["  cmd LC_MAIN".toList, " cmdsize 80".toList]).details =
      ["cmd LC_MAIN".toList, "cmdsize 80".toList] ∧
    (interpRaw ["  entryoff 1234".toList]).command = [] ∧
    (interpRaw ["  entryoff 1234".toList]).cmdsize = [] := by
  obtain ⟨h1, h2⟩ := load_command_details_complete ["hdr".toList]
    [["  cmd LC_MAIN".toList, " cmdsize 80".toList],
     ["  entryoff 1234".toList]] (by decide) (by decide)
  refine ⟨h1, ?_, ?_, ?_⟩
  · have := (h2 _ (List.mem_cons_self _ _)).1
    simpa using this
  · exact (h2 _ (by decide)).2.1 (by decide)
  · exact (h2 _ (by decide)).2.2 (by decide)

/-! ## C8: the instruction extractor soft-fails -/

theorem arm_foldl_no_match (lines : List Line) :
    ∀ acc : List Line,
      lines.all (fun l => !hexAddrMatch (pyStrip l)) = true →
      lines.foldl (fun acc line =>
        let l := pyStrip line
        if hexAddrMatch l then
          match pySplitMax 2 l with
          | _ :: v :: _ => acc ++ [v]
          | _ => acc
        else acc) acc = acc := by
  induction lines with
  | nil => intro acc _; rfl
  | cons e es ih =>
    intro acc h
    simp only [List.all_cons, Bool.and_eq_true, Bool.not_eq_true'] at h
    rw [List.foldl_cons]
    have hstep : (let l := pyStrip e;
        if hexAddrMatch l then
          match pySplitMax 2 l with
          | _ :: v :: _ => acc ++ [v]
          | _ => acc
        else acc) = acc := by
      simp [h.1]
    rw [hstep]
    exact ih acc h.2

/-- Claim C8: when the disassembler collaborator fails —
`CalledProcessError` (unsupported format, decode error), the tool being
absent (`FileNotFoundError`), or `otool` printing only diagnostic text
with no address-prefixed lines ("does not contain architecture arm64") —
`get_arm64_instructions` returns the empty list; it is a total function
with no error channel, so no error is surfaced. -/
theorem get_arm64_instructions_soft_fail :
    get_arm64_instructions .processError = [] ∧
    get_arm64_instructions .fileNotFound = [] ∧
    ∀ lines : List Line,
      lines.all (fun l => !hexAddrMatch (pyStrip l)) = true →
      get_arm64_instructions (.ok lines) = [] := by
  refine ⟨rfl, rfl, fun lines h => ?_⟩
  exact arm_foldl_no_match lines [] h

/-- Witness for C8: the diagnostic `otool` prints for a binary with no
arm64 slice yields no instructions. -/
theorem get_arm64_instructions_soft_fail_witness :
    get_arm64_instructions (.ok
      ["/bin/ls: does not contain architecture arm64".toList]) = [] :=
  get_arm64_instructions_soft_fail.2.2 _ (by decide)

/-! ## C4: the scan never aborts on a bad file -/

theorem headers_foldl_binaries (binaryId : Nat) (hs : List HeaderRec)
    (db : DB) :
    (hs.foldl (storeHeaderRow binaryId) db).binaries = db.binaries := by
  induction hs generalizing db with
  | nil => rfl
  | cons h hs ih => exact ih (storeHeaderRow binaryId db h)

theorem store_arm_binaries (binaryId : Nat) (instrs : List Line) (db : DB) :
    (store_arm64_instructions binaryId instrs db).binaries = db.binaries := by
  induction instrs generalizing db with
  | nil => rfl
  | cons i instrs ih => exact ih (insertArmRow binaryId db i)

theorem store_lc_binaries (binaryId : Nat) (cmds : List LoadCmd) (db : DB) :
    (store_load_commands binaryId cmds db).binaries = db.binaries :=
  (store_load_commands_other_tables binaryId cmds db).1

/-- `process_file` raises only when an `otool` invocation hits an
OS-level error that `get_mach_header_info`/`get_load_commands` do not
catch (the tool itself missing); for every other file — valid, corrupt
(`CalledProcessError`), or arbitrary text — it succeeds and appends
exactly one `binary` row for this file. -/
theorem process_file_ok (f : FileEntry) (db : DB)
    (h1 : f.otoolHv ≠ .fileNotFound) (h2 : f.otoolL ≠ .fileNotFound) :
    ∃ db', process_file f db = .ok db' ∧
      db'.binaries = db.binaries ++ [(db.binaries.length + 1, f.path)] := by
  obtain ⟨hs, hhv⟩ : ∃ hs, get_mach_header_info f.otoolHv = .ok hs := by
    cases hh : f.otoolHv with
    | ok lines => exact ⟨parseHeaders lines, rfl⟩
    | processError => exact ⟨[], rfl⟩
    | fileNotFound => exact absurd hh h1
  obtain ⟨cs, hlc⟩ : ∃ cs, get_load_commands f.otoolL = .ok cs := by
    cases hl : f.otoolL with
    | ok lines => exact ⟨parseLoadCommands lines, rfl⟩
    | processError => exact ⟨[], rfl⟩
    | fileNotFound => exact absurd hl h2
  unfold process_file
  rw [hhv, hlc]
  refine ⟨_, rfl, ?_⟩
  split
  · split
    · rw [headers_foldl_binaries]
      simp [insertBinary]
    · rw [store_arm_binaries, headers_foldl_binaries]
      simp [insertBinary]
  · rw [store_lc_binaries]
    split
    · rw [headers_foldl_binaries]
      simp [insertBinary]
    · rw [store_arm_binaries, headers_foldl_binaries]
      simp [insertBinary]

theorem walk_aux : ∀ (files : List FileEntry) (db : DB),
    (∀ f ∈ files, f.otoolHv ≠ .fileNotFound ∧ f.otoolL ≠ .fileNotFound) →
    ∃ db', walk_directory files db = .ok db' ∧
      db'.binaries.map (fun b => b.2) =
        db.binaries.map (fun b => b.2) ++
          (files.filter (fun f => f.isFile && is_mach_o f.content)).map
            (fun f => f.path) := by
  intro files
  induction files with
  | nil => exact fun db _ => ⟨db, rfl, by simp⟩
  | cons f fs ih =>
    intro db h
    have hf := h f (List.mem_cons_self f fs)
    have hfs := fun g hg => h g (List.mem_cons_of_mem f hg)
    show ∃ db', fs.foldl walkStep (walkStep (.ok db) f) = .ok db' ∧ _
    by_cases hfile : f.isFile = true
    · by_cases hmach : is_mach_o f.content = true
      · obtain ⟨db1, hpf, hb1⟩ := process_file_ok f db hf.1 hf.2
        have hws : walkStep (.ok db) f = .ok db1 := by
          simp [walkStep, hfile, hmach, hpf]
        rw [hws]
        obtain ⟨db', hw, hb⟩ := ih db1 hfs
        refine ⟨db', hw, ?_⟩
        rw [hb, hb1]
        simp [List.filter_cons, hfile, hmach]
      · have hws : walkStep (.ok db) f = .ok db := by
          simp [walkStep, hfile, hmach]
        rw [hws]
        obtain ⟨db', hw, hb⟩ := ih db hfs
        refine ⟨db', hw, ?_⟩
        rw [hb]
        simp [List.filter_cons, hfile, hmach]
    · have hws : walkStep (.ok db) f = .ok db := by
        simp [walkStep, hfile]
      rw [hws]
      obtain ⟨db', hw, hb⟩ := ih db hfs
      refine ⟨db', hw, ?_⟩
      rw [hb]
      simp [List.filter_cons, hfile]

/-- Claim C4: over any mix of valid, corrupt, truncated, or unreadable
files (unreadable = the sniffer's read fails; corrupt/truncated = the
`otool` calls exit non-zero; the only uncaught per-call failure,
`FileNotFoundError`, means the `otool` binary itself is absent, which
the hypothesis excludes), the walk completes without aborting and the
resulting `binary` table holds the prior paths followed by exactly the
Mach-O hits of the walk, in order — one bad file never affects the
others. -/
theorem scan_never_aborts (files : List FileEntry) (db : DB)
    (h : ∀ f ∈ files, f.otoolHv ≠ .fileNotFound ∧ f.otoolL ≠ .fileNotFound) :
    (walk_directory files db).map (fun db' => db'.binaries.map (fun b => b.2)) =
      .ok (db.binaries.map (fun b => b.2) ++
        (files.filter (fun f => f.isFile && is_mach_o f.content)).map
          (fun f => f.path)) := by
  obtain ⟨db', hw, hb⟩ := walk_aux files db h
  rw [hw]
  simp [Except.map, hb]

/-- Witness for C4: four files — a valid Mach-O, a corrupt Mach-O (all
`otool` calls fail), an unreadable file, and a plain text file — scan to
exactly the two Mach-O paths, in walk order. -/
theorem scan_never_aborts_witness :
    (walk_directory
      [ ⟨"/sbin/good", true, some [0xCF, 0xFA, 0xED, 0xFE, 0, 0],
          .ok ["0xfeedfacf 16777228 0 0x00 EXECUTE 2 96 PIE".toList],
          .ok ["100003ae8 add x0, x0, #0x100".toList],
          .ok ["Load command 0".toList, "cmd LC_SYMTAB".toList,
               "cmdsize 24".toList]⟩
      , ⟨"/sbin/corrupt", true, some [0xFE, 0xED, 0xFA, 0xCF, 9, 9],
          .processError, .processError, .processError⟩
      , ⟨"/sbin/unreadable", true, none, .processError, .processError,
          .processError⟩
      , ⟨"/sbin/notes.txt", true, some [0x68, 0x65, 0x6C, 0x6C, 0x6F],
          .processError, .processError, .processError⟩
      ] ⟨[], [], [], []⟩).map (fun db' => db'.binaries.map (fun b => b.2)) =
      .ok ["/sbin/good", "/sbin/corrupt"] :=
  scan_never_aborts _ _ (by decide)

/-! ## C5: fat-binary header slices -/

theorem filter_headerLineMatch_nil (pre : List Line)
    (h : pre.all (fun l => !headerLineMatch (pyStrip l)) = true) :
    (pre.map pyStrip).filter headerLineMatch = [] := by
  induction pre with
  | nil => rfl
  | cons l ls ih =>
    simp only [List.all_cons, Bool.and_eq_true, Bool.not_eq_true'] at h
    simp [List.filter_cons, h.1, ih h.2]

theorem parseHeaders_two_slices (pre : List Line) (l1 l2 : Line)
    (hpre : pre.all (fun l => !headerLineMatch (pyStrip l)) = true)
    (h1 : headerLineMatch (pyStrip l1) = true)
    (h2 : headerLineMatch (pyStrip l2) = true) :
    parseHeaders (pre ++ [l1, l2]) =
      (headerOfLine (pyStrip l1)).toList ++
        (headerOfLine (pyStrip l2)).toList := by
  unfold parseHeaders
  rw [List.map_append, List.filter_append, filter_headerLineMatch_nil pre hpre]
  cases hA : headerOfLine (pyStrip l1) <;> cases hB : headerOfLine (pyStrip l2) <;>
    simp [List.filter_cons, List.filterMap_cons, h1, h2, hA, hB]

/-- Claim C5 (amended): for a fat binary whose `otool -hv` output shows
two slice data lines, `get_mach_header_info` yields one `HeaderRec` per
decodable line — two records when both lines have at least 7 fields; a
line with fewer than 7 fields is dropped silently (the `continue`
branch; no `HeaderDecodeError` exists in the code) while the sibling is
still returned; and a slice whose numeric fields fail to decode is NOT
skipped: it is kept and stored with SQL `NULL` (`none`) in the numeric
columns. -/
theorem get_mach_header_info_slices
    (pre : List Line) (l1 l2 : Line)
    (hpre : pre.all (fun l => !headerLineMatch (pyStrip l)) = true)
    (h1 : headerLineMatch (pyStrip l1) = true)
    (h2 : headerLineMatch (pyStrip l2) = true) :
    get_mach_header_info (.ok (pre ++ [l1, l2])) =
      .ok ((headerOfLine (pyStrip l1)).toList ++
        (headerOfLine (pyStrip l2)).toList) ∧
    (headerOfLine (pyStrip l1) = none →
      parseHeaders (pre ++ [l1, l2]) = (headerOfLine (pyStrip l2)).toList) ∧
    (∀ r1 r2, headerOfLine (pyStrip l1) = some r1 →
      headerOfLine (pyStrip l2) = some r2 →
      parseHeaders (pre ++ [l1, l2]) = [r1, r2]) ∧
    (∀ binaryId (db : DB) (r : HeaderRec), pyIsdigit r.ncmds = false →
      (storeHeaderRow binaryId db r).headers =
        db.headers ++ [⟨binaryId, r.magic, r.cputype, r.cpusubtype, r.caps,
          r.filetype, none, intIfDigit r.sizeofcmds, r.flags⟩]) := by
  have hp := parseHeaders_two_slices pre l1 l2 hpre h1 h2
  refine ⟨?_, ?_, ?_, ?_⟩
  · show Except.ok (parseHeaders _) = _
    rw [hp]
  · intro hn
    rw [hp, hn]
    rfl
  · intro r1 r2 hr1 hr2
    rw [hp, hr1, hr2]
    rfl
  · intro binaryId db r hnd
    simp [storeHeaderRow, intIfDigit, hnd]

/-- Witness for C5 (amended): two decodable slice lines yield two
records, and a record with non-digit `ncmds` is stored with `none`. -/
theorem get_mach_header_info_slices_witness :
    parseHeaders
      [ "Mach header".toList
      , "magic cputype cpusubtype caps filetype ncmds sizeofcmds flags".toList
      , "0xfeedface 16777223 3 0x00 EXECUTE 19 1816 NOUNDEFS TWOLEVEL".toList
      , "0xfeedfacf 16777228 0 0x00 EXECUTE 15 2120 PIE".toList ] =
      [ ⟨"0xfeedface".toList, "16777223".toList, "3".toList, "0x00".toList,
          "EXECUTE".toList, "19".toList, "1816".toList,
          "NOUNDEFS TWOLEVEL".toList⟩
      , ⟨"0xfeedfacf".toList, "16777228".toList, "0".toList, "0x00".toList,
          "EXECUTE".toList, "15".toList, "2120".toList, "PIE".toList⟩ ] ∧
    (storeHeaderRow 1 ⟨[], [], [], []⟩
        ⟨"0xfeedfacf".toList, "16777228".toList, "0".toList, "0x80".toList,
          "EXECUTE".toList, "abc".toList, "1234".toList, "PIE".toList⟩).headers =
      [⟨1, "0xfeedfacf".toList, "16777228".toList, "0".toList, "0x80".toList,
        "EXECUTE".toList, none, intIfDigit ("1234".toList), "PIE".toList⟩] := by
  obtain ⟨hA, hB, hC, hD⟩ := get_mach_header_info_slices
    [ "Mach header".toList
    , "magic cputype cpusubtype caps filetype ncmds sizeofcmds flags".toList ]
    "0xfeedface 16777223 3 0x00 EXECUTE 19 1816 NOUNDEFS TWOLEVEL".toList
    "0xfeedfacf 16777228 0 0x00 EXECUTE 15 2120 PIE".toList
    (by decide) (by decide) (by decide)
  refine ⟨hC _ _ (by decide) (by decide), ?_⟩
  simpa using hD 1 ⟨[], [], [], []⟩
    ⟨"0xfeedfacf".toList, "16777228".toList, "0".toList, "0x80".toList,
      "EXECUTE".toList, "abc".toList, "1234".toList, "PIE".toList⟩ (by decide)

/-- The `otool -hv` text of a two-slice fat binary whose first slice has
a corrupt (non-numeric) `ncmds` field. -/
def fatHvLines : List Line :=
  [ "Mach header".toList
  , "magic cputype cpusubtype caps filetype ncmds sizeofcmds flags".toList
  , "0xfeedfacf 16777223 0 0x80 EXECUTE abc 1234 PIE".toList
  , "0xfeedfacf 16777228 0 0x00 EXECUTE 15 2120 NOUNDEFS PIE".toList ]

/-- Claim C5 counterexample: on `fatHvLines` the claim predicts the
corrupt slice surfaces a `HeaderDecodeError` and is skipped, leaving one
record.  The code returns BOTH slices — its result type carries no error
at all — and stores the corrupt one with `ncmds = NULL` instead of
skipping it. -/
theorem corrupt_slice_not_skipped :
    get_mach_header_info (.ok fatHvLines) = .ok (parseHeaders fatHvLines) ∧
    (parseHeaders fatHvLines).length = 2 ∧
    ((parseHeaders fatHvLines).foldl (storeHeaderRow 1)
        ⟨[], [], [], []⟩).headers.map
        (fun h => (h.binaryId, h.ncmds, h.sizeofcmds)) =
      [(1, none, some 1234), (1, some 15, some 2120)] :=
  ⟨rfl, by decide, by decide⟩

/-! ## C6: the dashboard missing-code-signature query
(dashboard.py lines 285-299) -/

/-- `pandas.Series.unique()`: first-occurrence order, no duplicates. -/
def uniqueKeep (l : List String) : List String :=
  l.foldl (fun acc x => if x ∈ acc then acc else acc ++ [x]) []

/-- Code-point lexicographic order on text, as Python compares `str`. -/
def lineLt : Line → Line → Bool
  | [], [] => false
  | [], _ :: _ => true
  | _ :: _, [] => false
  | a :: as, b :: bs => if a = b then lineLt as bs else decide (a < b)

def strLt (a b : String) : Bool := lineLt a.toList b.toList

def insertSorted (x : String) : List String → List String
  | [] => [x]
  | y :: ys => if strLt x y then x :: y :: ys else y :: insertSorted x ys

/-- Python `sorted` on strings (insertion sort; order is lexicographic). -/
def sortStrings : List String → List String
  | [] => []
  | x :: xs => insertSorted x (sortStrings xs)

/-- The command value the dashboard matches exactly. -/
def lcCodeSig : Line := "LC_CODE_SIGNATURE".toList

/-- The `load_commands JOIN binary` projection the dashboard reads:
`(binary_path, command)` pairs. -/
def dfLoad (db : DB) : List (String × Line) :=
  db.loadRows.filterMap (fun r =>
    (db.binaries.find? (fun b => b.1 == r.binaryId)).map
      (fun b => (b.2, r.command)))

/-- `sorted(set(all_binaries_loadcmd) - set(binaries_with_code_sig))`:
binaries appearing in the joined load-command table, minus those with an
`LC_CODE_SIGNATURE` row, sorted. -/
def missing_code_sig (rows : List (String × Line)) : List String :=
  sortStrings ((uniqueKeep (rows.map (fun r => r.1))).filter
    (fun p => !((uniqueKeep ((rows.filter (fun r => r.2 == lcCodeSig)).map
      (fun r => r.1))).contains p)))

theorem mem_uniqueKeep_aux (l : List String) :
    ∀ (acc : List String) (x : String),
      x ∈ l.foldl (fun acc x => if x ∈ acc then acc else acc ++ [x]) acc ↔
        x ∈ acc ∨ x ∈ l := by
  induction l with
  | nil =>
    intro acc x
    simp
  | cons a as ih =>
    intro acc x
    rw [List.foldl_cons]
    by_cases h : a ∈ acc
    · rw [if_pos h, ih]
      constructor
      · rintro (hx | hx)
        · exact Or.inl hx
        · exact Or.inr (List.mem_cons_of_mem a hx)
      · rintro (hx | hx)
        · exact Or.inl hx
        · rcases List.mem_cons.1 hx with rfl | hx
          · exact Or.inl h
          · exact Or.inr hx
    · rw [if_neg h, ih]
      simp only [List.mem_append, List.mem_singleton, List.mem_cons]
      tauto

theorem mem_uniqueKeep (l : List String) (x : String) :
    x ∈ uniqueKeep l ↔ x ∈ l := by
  unfold uniqueKeep
  rw [mem_uniqueKeep_aux]
  simp

theorem mem_insertSorted (x y : String) (ys : List String) :
    x ∈ insertSorted y ys ↔ x = y ∨ x ∈ ys := by
  induction ys with
  | nil => simp [insertSorted]
  | cons z zs ih =>
    unfold insertSorted
    split
    · simp [List.mem_cons]
    · simp only [List.mem_cons, ih]
      tauto

theorem mem_sortStrings (l : List String) (x : String) :
    x ∈ sortStrings l ↔ x ∈ l := by
  induction l with
  | nil => simp [sortStrings]
  | cons a as ih => simp [sortStrings, mem_insertSorted, ih]

theorem contains_eq_false_iff (L : List String) (q : String) :
    L.contains q = false ↔ q ∉ L := by
  simp

theorem mem_missing_code_sig (rows : List (String × Line)) (p : String) :
    p ∈ missing_code_sig rows ↔
      (∃ c, (p, c) ∈ rows) ∧ (p, lcCodeSig) ∉ rows := by
  unfold missing_code_sig
  rw [mem_sortStrings, List.mem_filter, mem_uniqueKeep]
  constructor
  · rintro ⟨h1, h2⟩
    obtain ⟨r, hr, rfl⟩ := List.mem_map.1 h1
    refine ⟨⟨r.2, by simpa using hr⟩, ?_⟩
    intro hmem
    have h2' : r.1 ∉ uniqueKeep ((rows.filter
        (fun r => r.2 == lcCodeSig)).map (fun r => r.1)) := by
      simpa using h2
    refine h2' ((mem_uniqueKeep _ _).2 ?_)
    exact List.mem_map.2 ⟨(r.1, lcCodeSig),
      List.mem_filter.2 ⟨hmem, by simp⟩, rfl⟩
  · rintro ⟨⟨c, hc⟩, hnot⟩
    refine ⟨List.mem_map.2 ⟨(p, c), hc, rfl⟩, ?_⟩
    rw [Bool.not_eq_true', contains_eq_false_iff, mem_uniqueKeep]
    intro hmem
    obtain ⟨r, hr, hrp⟩ := List.mem_map.1 hmem
    have hf := List.mem_filter.1 hr
    have hreq : r = (p, lcCodeSig) := Prod.ext hrp (eq_of_beq hf.2)
    exact hnot (hreq ▸ hf.1)

/-- Claim C6 (amended): when `A`, `B`, `C` are the binaries appearing in
the joined load-command table, only `A` has an `LC_CODE_SIGNATURE` row,
and `B` and `C` each have at least ONE load-command row, the query
returns exactly the set `{B, C}`.  (A stored binary with no
load-command rows never appears in the result — see the
counterexample.) -/
theorem missing_code_sig_exact (rows : List (String × Line)) (A B C : String)
    (hBA : B ≠ A) (hCA : C ≠ A)
    (hscope : ∀ r ∈ rows, r.1 = A ∨ r.1 = B ∨ r.1 = C)
    (honlyA : ∀ r ∈ rows, r.2 = lcCodeSig → r.1 = A)
    (hAsig : (A, lcCodeSig) ∈ rows)
    (hB : ∃ c, (B, c) ∈ rows)
    (hC : ∃ c, (C, c) ∈ rows) :
    (missing_code_sig rows).toFinset = {B, C} := by
  ext p
  rw [List.mem_toFinset, mem_missing_code_sig]
  simp only [Finset.mem_insert, Finset.mem_singleton]
  constructor
  · rintro ⟨⟨c, hc⟩, hnot⟩
    rcases hscope (p, c) hc with h | h | h
    · exact absurd (by rw [show p = A from h] at hc ⊢; exact hAsig) hnot
    · exact Or.inl h
    · exact Or.inr h
  · rintro (rfl | rfl)
    · exact ⟨hB, fun hmem => hBA (honlyA _ hmem rfl)⟩
    · exact ⟨hC, fun hmem => hCA (honlyA _ hmem rfl)⟩

/-- Witness for C6 (amended): `a` signed, `b` and `c` each with one
unsigned load command. -/
theorem missing_code_sig_exact_witness :
    (missing_code_sig [("a", lcCodeSig), ("a", "LC_SEGMENT_64".toList),
        ("b", "LC_SEGMENT_64".toList), ("c", "LC_SYMTAB".toList)]).toFinset =
      ({"b", "c"} : Finset String) :=
  missing_code_sig_exact _ "a" "b" "c" (by decide) (by decide)
    (by decide) (by decide) (by decide)
    ⟨"LC_SEGMENT_64".toList, by decide⟩ ⟨"LC_SYMTAB".toList, by decide⟩

/-- A stored state with three binaries: `a` has a code-signature row,
`c` has a segment row, and `b` has NO load-command rows at all (its
`otool -l` failed, so `process_file` stored none). -/
def c6db : DB :=
  ⟨[(1, "a"), (2, "b"), (3, "c")], [],
    [⟨1, 1, lcCodeSig, "16".toList, []⟩,
     ⟨2, 3, "LC_SEGMENT_64".toList, "72".toList, []⟩], []⟩

/-- Claim C6 counterexample: in `c6db` only `a` has a `CODE_SIGNATURE`
load command and `b`, `c` do not (`b` is stored but has zero
load-command rows).  The claim requires the query to return `{b, c}`;
it returns only `["c"]` because the query starts from the
`load_commands JOIN binary` table, where `b` never appears. -/
theorem missing_code_sig_drops_rowless_binary :
    (2, "b") ∈ c6db.binaries ∧
    (∀ r ∈ c6db.loadRows, r.command = lcCodeSig → r.binaryId = 1) ∧
    missing_code_sig (dfLoad c6db) = ["c"] ∧
    "b" ∉ missing_code_sig (dfLoad c6db) :=
  ⟨by decide, by decide, by decide, by decide⟩

/-! ## C7: schema creation (machob_harvester.py lines 14-60) -/

/-- One SQLite table: name, column list, stored rows. -/
structure SchemaTable where
  name : String
  cols : List String
  rows : List (List String)
deriving DecidableEq

/-- `CREATE TABLE IF NOT EXISTS`: a no-op when a table of that name
exists, otherwise appends an empty table. -/
def createTableIfNotExists (db : List SchemaTable) (n : String)
    (cols : List String) : List SchemaTable :=
  if db.any (fun t => t.name == n) then db else db ++ [⟨n, cols, []⟩]

/-- The four `CREATE TABLE IF NOT EXISTS` statements run at module load,
in source order. -/
def schemaDefs : List (String × List String) :=
  [ ("binary", ["id", "path"])
  , ("binary_header",
      ["id", "binary_id", "magic", "cputype", "cpusubtype", "caps",
       "filetype", "ncmds", "sizeofcmds", "flags"])
  , ("arm_asm_instructions", ["id", "binary_id", "instruction"])
  , ("load_commands", ["id", "binary_id", "command", "cmdsize", "details"])
  ]

/-- Store initialisation: run the four creates against the (possibly
pre-existing) database. -/
def initStore (db : List SchemaTable) : List SchemaTable :=
  schemaDefs.foldl (fun db p => createTableIfNotExists db p.1 p.2) db

theorem initStore_eq (db : List SchemaTable) :
    initStore db =
      createTableIfNotExists
        (createTableIfNotExists
          (createTableIfNotExists
            (createTableIfNotExists db "binary" ["id", "path"])
            "binary_header"
            ["id", "binary_id", "magic", "cputype", "cpusubtype", "caps",
             "filetype", "ncmds", "sizeofcmds", "flags"])
          "arm_asm_instructions" ["id", "binary_id", "instruction"])
        "load_commands"
        ["id", "binary_id", "command", "cmdsize", "details"] := rfl

theorem createTable_of_present (db : List SchemaTable) (n : String)
    (cols : List String) (h : db.any (fun t => t.name == n) = true) :
    createTableIfNotExists db n cols = db := by
  simp [createTableIfNotExists, h]

theorem present_after_create (db : List SchemaTable) (n : String)
    (cols : List String) :
    (createTableIfNotExists db n cols).any (fun t => t.name == n) = true := by
  unfold createTableIfNotExists
  split
  · assumption
  · rw [List.any_append]
    simp

theorem present_mono (db : List SchemaTable) (n : String) (cols : List String)
    (m : String) (h : db.any (fun t => t.name == m) = true) :
    (createTableIfNotExists db n cols).any (fun t => t.name == m) = true := by
  unfold createTableIfNotExists
  split
  · exact h
  · rw [List.any_append]
    simp [h]

theorem mem_createTable (db : List SchemaTable) (n : String)
    (cols : List String) (t : SchemaTable) (h : t ∈ db) :
    t ∈ createTableIfNotExists db n cols := by
  unfold createTableIfNotExists
  split
  · exact h
  · exact List.mem_append_left _ h

theorem nodup_createTable (db : List SchemaTable) (n : String)
    (cols : List String) (h : (db.map (fun t => t.name)).Nodup) :
    ((createTableIfNotExists db n cols).map (fun t => t.name)).Nodup := by
  unfold createTableIfNotExists
  split
  · exact h
  · next hany =>
    rw [List.map_append, List.nodup_append]
    refine ⟨h, by simp, ?_⟩
    intro x hx hx2
    simp only [List.map_cons, List.map_nil, List.mem_singleton] at hx2
    subst hx2
    apply hany
    rw [List.any_eq_true]
    obtain ⟨t, ht, htn⟩ := List.mem_map.1 hx
    exact ⟨t, ht, by simp [htn]⟩

/-- Claim C7: store initialisation is idempotent — running the four
`CREATE TABLE IF NOT EXISTS` statements a second time against the same
persisted state changes nothing, every pre-existing table (with its
rows) survives, and no duplicate table names appear. -/
theorem initStore_idempotent (db : List SchemaTable)
    (hnodup : (db.map (fun t => t.name)).Nodup) :
    initStore (initStore db) = initStore db ∧
    (∀ t ∈ db, t ∈ initStore db) ∧
    ((initStore db).map (fun t => t.name)).Nodup := by
  have h1 : (initStore db).any (fun t => t.name == "binary") = true := by
    rw [initStore_eq]
    exact present_mono _ _ _ _ (present_mono _ _ _ _
      (present_mono _ _ _ _ (present_after_create _ _ _)))
  have h2 : (initStore db).any (fun t => t.name == "binary_header") = true := by
    rw [initStore_eq]
    exact present_mono _ _ _ _ (present_mono _ _ _ _
      (present_after_create _ _ _))
  have h3 : (initStore db).any
      (fun t => t.name == "arm_asm_instructions") = true := by
    rw [initStore_eq]
    exact present_mono _ _ _ _ (present_after_create _ _ _)
  have h4 : (initStore db).any (fun t => t.name == "load_commands") = true := by
    rw [initStore_eq]
    exact present_after_create _ _ _
  refine ⟨?_, ?_, ?_⟩
  · rw [initStore_eq (initStore db), createTable_of_present _ _ _ h1,
      createTable_of_present _ _ _ h2, createTable_of_present _ _ _ h3,
      createTable_of_present _ _ _ h4]
  · intro t ht
    rw [initStore_eq]
    exact mem_createTable _ _ _ _ (mem_createTable _ _ _ _
      (mem_createTable _ _ _ _ (mem_createTable _ _ _ _ ht)))
  · rw [initStore_eq]
    exact nodup_createTable _ _ _ (nodup_createTable _ _ _
      (nodup_createTable _ _ _ (nodup_createTable _ _ _ hnodup)))

/-- Witness for C7: a store that already holds a `binary` table with one
row survives re-initialisation unchanged. -/
theorem initStore_idempotent_witness :
    initStore (initStore [⟨"binary", ["id", "path"], [["1", "/bin/ls"]]⟩]) =
      initStore [⟨"binary", ["id", "path"], [["1", "/bin/ls"]]⟩] ∧
    (⟨"binary", ["id", "path"], [["1", "/bin/ls"]]⟩ : SchemaTable) ∈
      initStore [⟨"binary", ["id", "path"], [["1", "/bin/ls"]]⟩] ∧
    ((initStore [⟨"binary", ["id", "path"], [["1", "/bin/ls"]]⟩]).map
      (fun t => t.name)).Nodup := by
  obtain ⟨hA, hB, hC⟩ := initStore_idempotent
    [⟨"binary", ["id", "path"], [["1", "/bin/ls"]]⟩] (by decide)
  exact ⟨hA, hB _ (by decide), hC⟩
